import Mathlib

/-!
Shallow embedding of the analysis core of the `polymarket` repository
(`src/analyze.ts`): the wallet-statistics aggregator, the FIFO
profit engine, the price-level aggregator and the two time-bucketed
price trackers.  JavaScript numbers are modelled as exact rationals
(`ℚ`), strings as `String`, `Map`/`Set` as insertion-ordered
association lists / lists, mirroring the source line by line.
-/

attribute [local semireducible] Rat.add Rat.mul Rat.sub Rat.inv Rat.ofScientific

namespace Polymarket

/-- Model of JavaScript `String.prototype.toLowerCase` (ASCII case
mapping, applied character by character). -/
def toLowerCase (s : String) : String := String.mk (s.data.map Char.toLower)

/-- The `side` field of an order: `"BUY" | "SELL"`. -/
inductive Side where
  | BUY
  | SELL
deriving DecidableEq, Repr

/-- One record of the `orders_matched` data (interface `OrderMatched`).
Optional fields are `Option`; `receivedAt` is required by the interface. -/
structure OrderMatched where
  receivedAt : String
  eventSlug : Option String
  wallet : Option String
  side : Option Side
  size : Option ℚ
  price : Option ℚ
  outcome : Option String
  outcomeIndex : Option ℤ
  onChainTimestamp : Option ℤ
deriving DecidableEq, Repr

/-- `o.wallet?.toLowerCase() === wallet.toLowerCase()`. -/
def walletKeyMatches (o : OrderMatched) (wallet : String) : Bool :=
  match o.wallet with
  | some w => decide (toLowerCase w = toLowerCase wallet)
  | none => false

/-- `o.side === "BUY"`. -/
def isBuy (o : OrderMatched) : Bool := decide (o.side = some Side.BUY)

/-- `o.side === "SELL"`. -/
def isSell (o : OrderMatched) : Bool := decide (o.side = some Side.SELL)

/-- `orders.reduce((sum, o) => sum + (o.size || 0), 0)`. -/
def sumSize (l : List OrderMatched) : ℚ :=
  l.foldl (fun sum o => sum + o.size.getD 0) 0

/-- `orders.reduce((sum, o) => sum + (o.size || 0) * (o.price || 0), 0)`. -/
def sumValue (l : List OrderMatched) : ℚ :=
  l.foldl (fun sum o => sum + o.size.getD 0 * o.price.getD 0) 0

/-- Result of `getWalletStats` (interface `WalletStats`). -/
structure WalletStats where
  wallet : String
  totalTrades : ℕ
  buyCount : ℕ
  sellCount : ℕ
  totalBuyVolume : ℚ
  totalSellVolume : ℚ
  averageBuyPrice : ℚ
  averageSellPrice : ℚ
  totalVolume : ℚ
deriving DecidableEq, Repr

/-- `getWalletStats(orders, wallet)` from `src/analyze.ts`. -/
def getWalletStats (orders : List OrderMatched) (wallet : String) : WalletStats :=
  let walletOrders := orders.filter (fun o => walletKeyMatches o wallet)
  let buyOrders := walletOrders.filter isBuy
  let sellOrders := walletOrders.filter isSell
  let totalBuyVolume := sumSize buyOrders
  let totalSellVolume := sumSize sellOrders
  let totalBuyValue := sumValue buyOrders
  let totalSellValue := sumValue sellOrders
  let averageBuyPrice := if totalBuyVolume > 0 then totalBuyValue / totalBuyVolume else 0
  let averageSellPrice := if totalSellVolume > 0 then totalSellValue / totalSellVolume else 0
  { wallet := wallet
    totalTrades := walletOrders.length
    buyCount := buyOrders.length
    sellCount := sellOrders.length
    totalBuyVolume := totalBuyVolume
    totalSellVolume := totalSellVolume
    averageBuyPrice := averageBuyPrice
    averageSellPrice := averageSellPrice
    totalVolume := totalBuyVolume + totalSellVolume }

/-- Sort key `(a.onChainTimestamp || 0)` used by the `.sort` comparator. -/
def tsKey (o : OrderMatched) : ℤ := o.onChainTimestamp.getD 0

/-- Stable insertion into a timestamp-sorted list: the new element is
placed before the first element of key ≥ its own, so that elements of
equal key keep their original relative order (JS `Array.sort` is stable). -/
def insertByTs (o : OrderMatched) : List OrderMatched → List OrderMatched
  | [] => [o]
  | x :: xs => if tsKey o ≤ tsKey x then o :: x :: xs else x :: insertByTs o xs

/-- `.sort((a, b) => (a.onChainTimestamp || 0) - (b.onChainTimestamp || 0))`,
as a stable sort on the key `tsKey`. -/
def sortByTs (l : List OrderMatched) : List OrderMatched :=
  l.foldr insertByTs []

/-- A FIFO lot of the profit engine: `{ size, price }` pushed on BUY. -/
structure Lot where
  size : ℚ
  price : ℚ
deriving DecidableEq, Repr

/-- Per-outcome accumulator of `calculateWalletProfit`
(the value type of its `profitByOutcome` map while processing). -/
structure OutcomeAcc where
  outcomeIndex : ℤ
  outcome : Option String
  realizedProfit : ℚ
  openPosition : ℚ
  buyQueue : List Lot
deriving DecidableEq, Repr

/-- State returned by the SELL-matching loop: the remaining queue, the
remaining unmatched sell size and the updated accumulators. -/
structure SellResult where
  queue : List Lot
  remaining : ℚ
  realized : ℚ
  openPos : ℚ
deriving DecidableEq, Repr

/-- The `while (remainingSell > 0 && buyQueue.length > 0)` loop of
`calculateWalletProfit`.  In the branch where the head lot is not fully
consumed (`buyOrder.size > 0` after the decrement) the matched size was
`m = remainingSell`, so the remaining sell is `0` and the loop exits at
its next test; the function returns directly there. -/
def matchSell (price : ℚ) : List Lot → ℚ → ℚ → ℚ → SellResult
  | [], r, rp, op => ⟨[], r, rp, op⟩
  | lot :: rest, r, rp, op =>
    if 0 < r then
      let m := min r lot.size
      if lot.size - m ≤ 0 then
        matchSell price rest (r - m) (rp + (price - lot.price) * m) (op - m)
      else
        ⟨{ size := lot.size - m, price := lot.price } :: rest, r - m,
          rp + (price - lot.price) * m, op - m⟩
    else ⟨lot :: rest, r, rp, op⟩

/-- `profitByOutcome.has(outcomeIndex)` on the insertion-ordered map. -/
def hasOutcome (m : List (ℤ × OutcomeAcc)) (k : ℤ) : Bool :=
  m.any (fun p => decide (p.1 = k))

/-- Update the value stored at key `k` (no-op on other entries). -/
def updateOutcome (m : List (ℤ × OutcomeAcc)) (k : ℤ) (f : OutcomeAcc → OutcomeAcc) :
    List (ℤ × OutcomeAcc) :=
  m.map (fun p => if p.1 = k then (p.1, f p.2) else p)

/-- `profitByOutcome.get(outcomeIndex)` on the insertion-ordered map. -/
def lookupOutcome (m : List (ℤ × OutcomeAcc)) (k : ℤ) : Option OutcomeAcc :=
  (m.find? (fun p => decide (p.1 = k))).map (fun p => p.2)

/-- Body of `walletOrders.forEach((order) => ...)` in
`calculateWalletProfit`: skip orders without `outcomeIndex`, create the
outcome bucket on first sight (JS `Map.set` appends in insertion order),
then push a lot on BUY or run the FIFO matching loop on SELL; any
unmatched sell remainder only decreases `openPosition`. -/
def processOrder (m : List (ℤ × OutcomeAcc)) (o : OrderMatched) : List (ℤ × OutcomeAcc) :=
  match o.outcomeIndex with
  | none => m
  | some oi =>
    let m1 := if hasOutcome m oi then m else m ++ [(oi, ⟨oi, o.outcome, 0, 0, []⟩)]
    let size := o.size.getD 0
    let price := o.price.getD 0
    updateOutcome m1 oi (fun d =>
      if o.side = some Side.BUY then
        { d with buyQueue := d.buyQueue ++ [⟨size, price⟩],
                 openPosition := d.openPosition + size }
      else if o.side = some Side.SELL then
        let s := matchSell price d.buyQueue size d.realizedProfit d.openPosition
        { d with realizedProfit := s.realized, buyQueue := s.queue,
                 openPosition := if 0 < s.remaining then s.openPos - s.remaining else s.openPos }
      else d)

/-- `orders.reduce` over lots: `sum + b.size * b.price`. -/
def lotValue (q : List Lot) : ℚ :=
  q.foldl (fun sum b => sum + b.size * b.price) 0

/-- `orders.reduce` over lots: `sum + b.size`. -/
def lotSize (q : List Lot) : ℚ :=
  q.foldl (fun sum b => sum + b.size) 0

/-- `remainingBuySize > 0 ? remainingBuyValue / remainingBuySize : 0`. -/
def avgRemainingBuyPrice (q : List Lot) : ℚ :=
  if lotSize q > 0 then lotValue q / lotSize q else 0

/-- `currentPrice.get(outcomeIndex)` on the optional current-price map. -/
def priceLookup (cp : List (ℤ × ℚ)) (k : ℤ) : Option ℚ :=
  (cp.find? (fun p => decide (p.1 = k))).map (fun p => p.2)

/-- The unrealized-profit computation of `calculateWalletProfit` for one
outcome: non-zero only when a current price for the outcome is supplied
and `openPosition > 0`. -/
def unrealizedFor (currentPrice : Option (List (ℤ × ℚ))) (d : OutcomeAcc) : ℚ :=
  match currentPrice with
  | none => 0
  | some cp =>
    match priceLookup cp d.outcomeIndex with
    | none => 0
    | some current =>
      if d.openPosition > 0 then
        (current - avgRemainingBuyPrice d.buyQueue) * d.openPosition
      else 0

/-- Per-outcome entry of the final `profitByOutcome` result map. -/
structure OutcomeProfit where
  outcomeIndex : ℤ
  outcome : Option String
  realizedProfit : ℚ
  openPosition : ℚ
  averageBuyPrice : ℚ
  averageSellPrice : ℚ
deriving DecidableEq, Repr

/-- Result of `calculateWalletProfit` (interface `WalletProfit`). -/
structure WalletProfit where
  wallet : String
  totalCost : ℚ
  totalRevenue : ℚ
  realizedProfit : ℚ
  unrealizedProfit : ℚ
  totalProfit : ℚ
  openPosition : ℚ
  profitByOutcome : List (ℤ × OutcomeProfit)
deriving DecidableEq, Repr

/-- Accumulator of the `profitByOutcome.forEach` aggregation pass. -/
structure ProfitTotals where
  totalCost : ℚ
  totalRevenue : ℚ
  realized : ℚ
  unrealized : ℚ
  openPosition : ℚ
  result : List (ℤ × OutcomeProfit)
deriving DecidableEq, Repr

/-- One step of the `profitByOutcome.forEach((data, outcomeIndex) => ...)`
aggregation: recompute the per-outcome cost/revenue and average prices
from all of the wallet's orders of that outcome, the unrealized profit
from the remaining queue, and accumulate the wallet-level totals. -/
def aggregateOutcome (walletOrders : List OrderMatched)
    (currentPrice : Option (List (ℤ × ℚ))) (t : ProfitTotals) (e : ℤ × OutcomeAcc) :
    ProfitTotals :=
  let oi := e.1
  let data := e.2
  let outcomeOrders := walletOrders.filter (fun o => decide (o.outcomeIndex = some oi))
  let buyOrders := outcomeOrders.filter isBuy
  let sellOrders := outcomeOrders.filter isSell
  let outcomeTotalCost := sumValue buyOrders
  let outcomeTotalRevenue := sumValue sellOrders
  let totalBuySize := sumSize buyOrders
  let averageBuyPrice := if totalBuySize > 0 then outcomeTotalCost / totalBuySize else 0
  let totalSellSize := sumSize sellOrders
  let averageSellPrice := if totalSellSize > 0 then outcomeTotalRevenue / totalSellSize else 0
  let unrealized := unrealizedFor currentPrice data
  { totalCost := t.totalCost + outcomeTotalCost
    totalRevenue := t.totalRevenue + outcomeTotalRevenue
    realized := t.realized + data.realizedProfit
    unrealized := t.unrealized + unrealized
    openPosition := t.openPosition + data.openPosition
    result := t.result ++
      [(oi, ⟨data.outcomeIndex, data.outcome, data.realizedProfit, data.openPosition,
             averageBuyPrice, averageSellPrice⟩)] }

/-- `calculateWalletProfit(orders, wallet, currentPrice?)` from
`src/analyze.ts`: filter to the wallet (case-insensitively), sort by
`onChainTimestamp` (missing = 0), run the FIFO engine per outcome, then
aggregate totals per outcome. -/
def calculateWalletProfit (orders : List OrderMatched) (wallet : String)
    (currentPrice : Option (List (ℤ × ℚ))) : WalletProfit :=
  let walletOrders := sortByTs (orders.filter (fun o => walletKeyMatches o wallet))
  let profitByOutcome := walletOrders.foldl processOrder []
  let t := profitByOutcome.foldl (aggregateOutcome walletOrders currentPrice)
    ⟨0, 0, 0, 0, 0, []⟩
  { wallet := wallet
    totalCost := t.totalCost
    totalRevenue := t.totalRevenue
    realizedProfit := t.realized
    unrealizedProfit := t.unrealized
    totalProfit := t.realized + t.unrealized
    openPosition := t.openPosition
    profitByOutcome := t.result }

/-- JS `Set<string>.add`: append if not already present (a JS `Set`
iterates in insertion order; its `size` is the list length here). -/
def setAdd (s : List String) (w : String) : List String :=
  if s.contains w then s else s ++ [w]

/-- Result entries of `analyzeByPrice` (interface `PriceLevelStats`). -/
structure PriceLevelStats where
  price : ℚ
  buyWallets : ℕ
  sellWallets : ℕ
  buyVolume : ℚ
  sellVolume : ℚ
  buyTrades : ℕ
  sellTrades : ℕ
  totalVolume : ℚ
  totalTrades : ℕ
  wallets : List String
  outcomeIndex : Option ℤ
deriving DecidableEq, Repr

/-- Accumulator value of the `priceMap` inside `analyzeByPrice`. -/
structure PriceAcc where
  price : ℚ
  buyWallets : List String
  sellWallets : List String
  buyVolume : ℚ
  sellVolume : ℚ
  buyTrades : ℕ
  sellTrades : ℕ
  wallets : List String
  outcomeIndex : Option ℤ
deriving DecidableEq, Repr

/-- `priceMap.has(price)` on the insertion-ordered map. -/
def hasPrice (m : List (ℚ × PriceAcc)) (k : ℚ) : Bool :=
  m.any (fun p => decide (p.1 = k))

/-- Update the accumulator stored at price `k`. -/
def updatePrice (m : List (ℚ × PriceAcc)) (k : ℚ) (f : PriceAcc → PriceAcc) :
    List (ℚ × PriceAcc) :=
  m.map (fun p => if p.1 = k then (p.1, f p.2) else p)

/-- Body of `filteredOrders.forEach((order) => ...)` in `analyzeByPrice`:
skip orders without a `price` (`undefined`/`null`) or with a falsy
`wallet` (`undefined` or the empty string), create the price bucket on
first sight, then record the lowercased wallet and the side's volume,
trade count and wallet set. -/
def priceStep (oi : Option ℤ) (m : List (ℚ × PriceAcc)) (o : OrderMatched) :
    List (ℚ × PriceAcc) :=
  match o.price with
  | none => m
  | some price =>
    match o.wallet with
    | none => m
    | some w =>
      if w = "" then m
      else
        let m1 := if hasPrice m price then m
                  else m ++ [(price, ⟨price, [], [], 0, 0, 0, 0, [], oi⟩)]
        let size := o.size.getD 0
        let wallet := toLowerCase w
        updatePrice m1 price (fun stats0 =>
          let stats := { stats0 with wallets := setAdd stats0.wallets wallet }
          if o.side = some Side.BUY then
            { stats with buyVolume := stats.buyVolume + size,
                         buyTrades := stats.buyTrades + 1,
                         buyWallets := setAdd stats.buyWallets wallet }
          else if o.side = some Side.SELL then
            { stats with sellVolume := stats.sellVolume + size,
                         sellTrades := stats.sellTrades + 1,
                         sellWallets := setAdd stats.sellWallets wallet }
          else stats)

/-- `analyzeByPrice(orders, outcomeIndex?)` from `src/analyze.ts`. -/
def analyzeByPrice (orders : List OrderMatched) (outcomeIndex : Option ℤ) :
    List (ℚ × PriceLevelStats) :=
  let filteredOrders : List OrderMatched := match outcomeIndex with
    | some i => orders.filter (fun o => decide (o.outcomeIndex = some i))
    | none => orders
  let priceMap : List (ℚ × PriceAcc) := filteredOrders.foldl (priceStep outcomeIndex) []
  priceMap.map (fun p =>
    (p.1, ⟨p.2.price, p.2.buyWallets.length, p.2.sellWallets.length,
           p.2.buyVolume, p.2.sellVolume, p.2.buyTrades, p.2.sellTrades,
           p.2.buyVolume + p.2.sellVolume, p.2.buyTrades + p.2.sellTrades,
           p.2.wallets, p.2.outcomeIndex⟩))

/-- Result entries of `trackPriceOverTime` (interface `PriceSnapshot`). -/
structure PriceSnapshot where
  timestamp : ℤ
  price : ℚ
  outcomeIndex : Option ℤ
  outcome : Option String
  volume : ℚ
  trades : ℕ
deriving DecidableEq, Repr

/-- The orders of the half-open window `[lo, hi)`
(`o.onChainTimestamp! >= currentBucketStart && o.onChainTimestamp! < bucketEnd`;
in context every order has a timestamp, so `getD 0` is exact). -/
def bucketOrders (sorted : List OrderMatched) (lo hi : ℤ) : List OrderMatched :=
  sorted.filter (fun o => decide (lo ≤ tsKey o) && decide (tsKey o < hi))

/-- `orders[0].outcome` of a (non-empty in context) list of orders. -/
def headOutcome (l : List OrderMatched) : Option String :=
  match l with
  | o :: _ => o.outcome
  | [] => none

/-- The snapshot pushed for one non-empty window of `trackPriceOverTime`:
volume-weighted average price (0 when the volume is not positive), total
volume and trade count, timestamped at the window start. -/
def snapshotOf (bucket : List OrderMatched) (start : ℤ) (oi : Option ℤ) : PriceSnapshot :=
  let totalVolume := sumSize bucket
  let totalValue := sumValue bucket
  let avgPrice := if totalVolume > 0 then totalValue / totalVolume else 0
  { timestamp := start
    price := avgPrice
    outcomeIndex := oi
    outcome := headOutcome bucket
    volume := totalVolume
    trades := bucket.length }

/-- The `while (currentBucketStart <= lastTimestamp)` loop of
`trackPriceOverTime`, with a fuel argument as termination device: every
iteration advances the window start by `interval`, so for a positive
interval `(last − start).toNat + 1` units of fuel are enough to reach
`start > last` (the source loop does not terminate for
`interval ≤ 0`). -/
def bucketLoop (sorted : List OrderMatched) (interval : ℤ) (oi : Option ℤ) (last : ℤ) :
    ℕ → ℤ → List PriceSnapshot
  | 0, _ => []
  | fuel + 1, start =>
    if start ≤ last then
      let bucket := bucketOrders sorted start (start + interval)
      let rest := bucketLoop sorted interval oi last fuel (start + interval)
      if bucket.length > 0 then snapshotOf bucket start oi :: rest else rest
    else []

/-- The successive window starts visited by the loop (same fuel device). -/
def windowStarts (interval last : ℤ) : ℕ → ℤ → List ℤ
  | 0, _ => []
  | fuel + 1, start =>
    if start ≤ last then start :: windowStarts interval last fuel (start + interval)
    else []

/-- `trackPriceOverTime(orders, intervalSeconds, outcomeIndex?)` from
`src/analyze.ts` (named `trackPriceByInterval` in the specification). -/
def trackPriceOverTime (orders : List OrderMatched) (intervalSeconds : ℤ)
    (outcomeIndex : Option ℤ) : List PriceSnapshot :=
  let filteredOrders : List OrderMatched := match outcomeIndex with
    | some i => orders.filter (fun o => decide (o.outcomeIndex = some i))
    | none => orders
  if filteredOrders.isEmpty then []
  else
    let sortedOrders := sortByTs (filteredOrders.filter (fun o => o.onChainTimestamp.isSome))
    match sortedOrders with
    | [] => []
    | first :: _ =>
      let firstTimestamp := first.onChainTimestamp.getD 0
      let lastTimestamp := ((sortedOrders.getLast?).bind (fun o => o.onChainTimestamp)).getD 0
      bucketLoop sortedOrders intervalSeconds outcomeIndex lastTimestamp
        ((lastTimestamp - firstTimestamp).toNat + 1) firstTimestamp

/-- Result entries of `trackPriceByTimestamp`
(interface `DetailedPriceSnapshot`). -/
structure DetailedPriceSnapshot where
  timestamp : ℤ
  outcomeIndex : Option ℤ
  outcome : Option String
  buyPrice : ℚ
  buyRecords : ℕ
  buyWallets : ℕ
  buyVolume : ℚ
  sellPrice : ℚ
  sellRecords : ℕ
  sellWallets : ℕ
  sellVolume : ℚ
  totalRecords : ℕ
  totalWallets : ℕ
  totalVolume : ℚ
deriving DecidableEq, Repr

/-- Add one order to the `timestampMap` (JS `Map` in insertion order;
the per-timestamp group keeps the orders in arrival order). -/
def addToTsGroup (m : List (ℤ × List OrderMatched)) (ts : ℤ) (o : OrderMatched) :
    List (ℤ × List OrderMatched) :=
  if m.any (fun p => decide (p.1 = ts)) then
    m.map (fun p => if p.1 = ts then (p.1, p.2 ++ [o]) else p)
  else m ++ [(ts, [o])]

/-- `timestampMap` built by `trackPriceByTimestamp`. -/
def buildTsGroups (sorted : List OrderMatched) : List (ℤ × List OrderMatched) :=
  sorted.foldl (fun m o => addToTsGroup m (tsKey o) o) []

/-- Insertion into a sorted list of keys (ascending numeric sort of
`Array.from(timestampMap.keys()).sort((a, b) => a - b)`). -/
def insertInt (x : ℤ) : List ℤ → List ℤ
  | [] => [x]
  | y :: ys => if x ≤ y then x :: y :: ys else y :: insertInt x ys

/-- Ascending sort of the timestamp keys. -/
def sortInts (l : List ℤ) : List ℤ :=
  l.foldr insertInt []

/-- The set of lowercased wallets of a list of orders (orders without a
wallet are not added). -/
def walletSetOf (l : List OrderMatched) : List String :=
  l.foldl (fun s o => match o.wallet with
                      | some w => setAdd s (toLowerCase w)
                      | none => s) []

/-- The snapshot built for one distinct timestamp by
`trackPriceByTimestamp`: BUY and SELL statistics computed independently
(volume-weighted price is 0 when the side's volume is not positive),
plus combined totals. -/
def detailedSnapshotOf (ts : ℤ) (oi : Option ℤ) (g : List OrderMatched) :
    DetailedPriceSnapshot :=
  let buyOrders := g.filter isBuy
  let sellOrders := g.filter isSell
  let buyTotalValue := sumValue buyOrders
  let buyTotalVolume := sumSize buyOrders
  let buyWalletsSet := walletSetOf buyOrders
  let buyPrice := if buyTotalVolume > 0 then buyTotalValue / buyTotalVolume else 0
  let sellTotalValue := sumValue sellOrders
  let sellTotalVolume := sumSize sellOrders
  let sellWalletsSet := walletSetOf sellOrders
  let sellPrice := if sellTotalVolume > 0 then sellTotalValue / sellTotalVolume else 0
  let allWalletsSet := walletSetOf g
  { timestamp := ts
    outcomeIndex := oi
    outcome := headOutcome g
    buyPrice := buyPrice
    buyRecords := buyOrders.length
    buyWallets := buyWalletsSet.length
    buyVolume := buyTotalVolume
    sellPrice := sellPrice
    sellRecords := sellOrders.length
    sellWallets := sellWalletsSet.length
    sellVolume := sellTotalVolume
    totalRecords := g.length
    totalWallets := allWalletsSet.length
    totalVolume := buyTotalVolume + sellTotalVolume }

/-- `timestampMap.get(timestamp)!` (present for every sorted key). -/
def tsGroupOf (m : List (ℤ × List OrderMatched)) (ts : ℤ) : List OrderMatched :=
  ((m.find? (fun p => decide (p.1 = ts))).map (fun p => p.2)).getD []

/-- `trackPriceByTimestamp(orders, outcomeIndex?)` from `src/analyze.ts`. -/
def trackPriceByTimestamp (orders : List OrderMatched) (outcomeIndex : Option ℤ) :
    List DetailedPriceSnapshot :=
  let filteredOrders : List OrderMatched := match outcomeIndex with
    | some i => orders.filter (fun o => decide (o.outcomeIndex = some i))
    | none => orders
  if filteredOrders.isEmpty then []
  else
    let sortedOrders := sortByTs (filteredOrders.filter (fun o => o.onChainTimestamp.isSome))
    if sortedOrders.isEmpty then []
    else
      let timestampMap := buildTsGroups sortedOrders
      let sortedTimestamps := sortInts (timestampMap.map (fun p => p.1))
      sortedTimestamps.map (fun ts => detailedSnapshotOf ts outcomeIndex (tsGroupOf timestampMap ts))

/-- Convenience constructor for concrete test orders. -/
def mkOrder (w : String) (s : Side) (size price : ℚ) (oi ts : ℤ) : OrderMatched :=
  ⟨"", none, some w, some s, some size, some price, none, some oi, some ts⟩

example :
    (calculateWalletProfit
      [mkOrder "a" Side.BUY 10 (2/5) 0 1, mkOrder "a" Side.SELL 10 (3/5) 0 2]
      "a" none).realizedProfit = 2 := by decide

example :
    (calculateWalletProfit
      [mkOrder "a" Side.BUY 10 (2/5) 0 1, mkOrder "a" Side.SELL 4 (7/10) 0 2]
      "a" none).openPosition = 6 := by decide


/-! ### Shared lemmas about the fold-based sums -/

theorem foldl_add_shift {α : Type} (f : α → ℚ) (l : List α) (a : ℚ) :
    l.foldl (fun s x => s + f x) a = a + l.foldl (fun s x => s + f x) 0 := by
  induction l generalizing a with
  | nil => simp
  | cons x l ih =>
    simp only [List.foldl_cons]
    rw [ih (a + f x), ih (0 + f x)]
    ring

theorem sumSize_cons (o : OrderMatched) (l : List OrderMatched) :
    sumSize (o :: l) = o.size.getD 0 + sumSize l := by
  unfold sumSize
  simp only [List.foldl_cons]
  rw [foldl_add_shift (fun o => o.size.getD 0) l, zero_add]

theorem sumValue_cons (o : OrderMatched) (l : List OrderMatched) :
    sumValue (o :: l) = o.size.getD 0 * o.price.getD 0 + sumValue l := by
  unfold sumValue
  simp only [List.foldl_cons]
  rw [foldl_add_shift (fun o => o.size.getD 0 * o.price.getD 0) l, zero_add]

theorem lotSize_cons (b : Lot) (q : List Lot) :
    lotSize (b :: q) = b.size + lotSize q := by
  unfold lotSize
  simp only [List.foldl_cons]
  rw [foldl_add_shift (fun b => b.size) q, zero_add]

theorem lotValue_cons (b : Lot) (q : List Lot) :
    lotValue (b :: q) = b.size * b.price + lotValue q := by
  unfold lotValue
  simp only [List.foldl_cons]
  rw [foldl_add_shift (fun b => b.size * b.price) q, zero_add]

theorem sumSize_eq_sum_map (l : List OrderMatched) :
    sumSize l = (l.map (fun o => o.size.getD 0)).sum := by
  induction l with
  | nil => rfl
  | cons o l ih => rw [sumSize_cons, List.map_cons, List.sum_cons, ih]

theorem sumValue_eq_sum_map (l : List OrderMatched) :
    sumValue l = (l.map (fun o => o.size.getD 0 * o.price.getD 0)).sum := by
  induction l with
  | nil => rfl
  | cons o l ih => rw [sumValue_cons, List.map_cons, List.sum_cons, ih]

theorem lotSize_nonneg (q : List Lot) (h : ∀ b ∈ q, 0 < b.size) : 0 ≤ lotSize q := by
  induction q with
  | nil => simp [lotSize]
  | cons b q ih =>
    rw [lotSize_cons]
    have hb := h b (List.mem_cons_self b q)
    have hq := ih (fun x hx => h x (List.mem_cons_of_mem b hx))
    linarith

/-! ### The SELL-matching loop: one step -/

theorem matchSell_cons (p : ℚ) (lot : Lot) (rest : List Lot) (r rp op : ℚ) (hr : 0 < r) :
    matchSell p (lot :: rest) r rp op =
      if lot.size ≤ r then
        matchSell p rest (r - min r lot.size)
          (rp + (p - lot.price) * min r lot.size) (op - min r lot.size)
      else
        ⟨{ size := lot.size - min r lot.size, price := lot.price } :: rest,
          r - min r lot.size, rp + (p - lot.price) * min r lot.size,
          op - min r lot.size⟩ := by
  by_cases h : lot.size ≤ r
  · have hm : min r lot.size = lot.size := min_eq_right h
    rw [if_pos h]
    simp only [matchSell, if_pos hr, hm, sub_self, le_refl, if_true]
  · have hm : min r lot.size = r := min_eq_left (le_of_not_le h)
    rw [if_neg h]
    have hc : ¬ (lot.size - min r lot.size ≤ 0) := by
      rw [hm]
      push_neg at h ⊢
      linarith
    simp only [matchSell, if_pos hr, if_neg hc]

theorem matchSell_openPos (p : ℚ) :
    ∀ (q : List Lot) (r rp op : ℚ), 0 ≤ r →
      0 ≤ (matchSell p q r rp op).remaining ∧
      (if 0 < (matchSell p q r rp op).remaining
       then (matchSell p q r rp op).openPos - (matchSell p q r rp op).remaining
       else (matchSell p q r rp op).openPos) = op - r := by
  intro q
  induction q with
  | nil =>
    intro r rp op hr
    refine ⟨by simpa [matchSell] using hr, ?_⟩
    by_cases h : 0 < r
    · simp [matchSell, h]
    · have : r = 0 := le_antisymm (le_of_not_lt h) hr
      simp [matchSell, this]
  | cons lot rest ih =>
    intro r rp op hr
    by_cases hr0 : 0 < r
    · by_cases hc : lot.size - min r lot.size ≤ 0
      · have hstep : matchSell p (lot :: rest) r rp op =
            matchSell p rest (r - min r lot.size)
              (rp + (p - lot.price) * min r lot.size) (op - min r lot.size) := by
          simp only [matchSell, if_pos hr0, if_pos hc]
        have hm : min r lot.size ≤ r := min_le_left _ _
        obtain ⟨h1, h2⟩ := ih (r - min r lot.size)
          (rp + (p - lot.price) * min r lot.size) (op - min r lot.size) (by linarith)
        rw [hstep]
        refine ⟨h1, ?_⟩
        rw [h2]
        ring
      · have hstep : matchSell p (lot :: rest) r rp op =
            ⟨{ size := lot.size - min r lot.size, price := lot.price } :: rest,
              r - min r lot.size, rp + (p - lot.price) * min r lot.size,
              op - min r lot.size⟩ := by
          simp only [matchSell, if_pos hr0, if_neg hc]
        have hm : min r lot.size = r := by
          rcases min_cases r lot.size with ⟨h1, _⟩ | ⟨h1, _⟩
          · exact h1
          · exfalso
            apply hc
            rw [h1]
            linarith
        rw [hstep]
        constructor
        · simp [hm]
        · simp [hm]
    · have : r = 0 := le_antisymm (le_of_not_lt hr0) hr
      subst this
      have hstep : matchSell p (lot :: rest) 0 rp op = ⟨lot :: rest, 0, rp, op⟩ := by
        simp [matchSell]
      rw [hstep]
      simp

theorem matchSell_drain (p : ℚ) :
    ∀ (q : List Lot) (r rp op : ℚ), (∀ b ∈ q, 0 < b.size) → lotSize q ≤ r →
      matchSell p q r rp op =
        ⟨[], r - lotSize q,
          rp + (q.map (fun b => (p - b.price) * b.size)).sum, op - lotSize q⟩ := by
  intro q
  induction q with
  | nil =>
    intro r rp op _ _
    simp [matchSell, lotSize]
  | cons lot rest ih =>
    intro r rp op hpos htot
    have hlot : 0 < lot.size := hpos lot (List.mem_cons_self _ _)
    have hrest : 0 ≤ lotSize rest :=
      lotSize_nonneg rest (fun b hb => hpos b (List.mem_cons_of_mem _ hb))
    rw [lotSize_cons] at htot
    have hr : 0 < r := by linarith
    have hls : lot.size ≤ r := by linarith
    have hm : min r lot.size = lot.size := min_eq_right hls
    have hstep : matchSell p (lot :: rest) r rp op =
        matchSell p rest (r - lot.size)
          (rp + (p - lot.price) * lot.size) (op - lot.size) := by
      simp only [matchSell, if_pos hr, hm, sub_self, le_refl, if_true]
    rw [hstep, ih (r - lot.size) _ _ (fun b hb => hpos b (List.mem_cons_of_mem _ hb))
      (by linarith)]
    rw [lotSize_cons, List.map_cons, List.sum_cons]
    simp only [SellResult.mk.injEq]
    refine ⟨trivial, by ring, by ring, by ring⟩

/-! ### C1 and C2: FIFO matching and short sells -/

/-- C1: for every wallet and outcome index, `calculateWalletProfit`
matches each SELL against the FIFO queue of prior BUY lots of the same
outcome: one loop step matches `m = min(remainingSellSize, headLotSize)`,
adds `(sellPrice − lotPrice)·m` to the realized profit, decrements the
open position by `m`, and pops the head lot exactly when its remaining
size reaches 0 (the branch `head.size ≤ remaining`); BUY 10@0.40 then
SELL 10@0.60 yields realizedProfit 2.00 and openPosition 0, and
BUY 10@0.40 then SELL 4@0.70 yields realizedProfit 1.20, openPosition 6,
with the head lot remaining at size 6, price 0.40. -/
theorem C1_fifo_matching :
    (∀ (p : ℚ) (lot : Lot) (rest : List Lot) (r rp op : ℚ), 0 < r →
      matchSell p (lot :: rest) r rp op =
        if lot.size ≤ r then
          matchSell p rest (r - min r lot.size)
            (rp + (p - lot.price) * min r lot.size) (op - min r lot.size)
        else
          ⟨{ size := lot.size - min r lot.size, price := lot.price } :: rest,
            r - min r lot.size, rp + (p - lot.price) * min r lot.size,
            op - min r lot.size⟩)
    ∧ calculateWalletProfit
        [mkOrder "a" Side.BUY 10 0.40 0 1, mkOrder "a" Side.SELL 10 0.60 0 2] "a" none
        = ⟨"a", 4, 6, 2, 0, 2, 0, [(0, ⟨0, none, 2, 0, 2/5, 3/5⟩)]⟩
    ∧ calculateWalletProfit
        [mkOrder "a" Side.BUY 10 0.40 0 1, mkOrder "a" Side.SELL 4 0.70 0 2] "a" none
        = ⟨"a", 4, 14/5, 6/5, 0, 6/5, 6, [(0, ⟨0, none, 6/5, 6, 2/5, 7/10⟩)]⟩
    ∧ List.foldl processOrder []
        [mkOrder "a" Side.BUY 10 0.40 0 1, mkOrder "a" Side.SELL 4 0.70 0 2]
        = [(0, ⟨0, none, 6/5, 6, [⟨6, 2/5⟩]⟩)] :=
  ⟨matchSell_cons, by decide, by decide, by decide⟩

theorem C1_fifo_matching_witness :
    matchSell 0.60 [⟨10, 0.40⟩] 10 0 10 = ⟨[], 0, 2, 0⟩ := by
  have h := C1_fifo_matching.1 0.60 ⟨10, 0.40⟩ [] 10 0 10 (by decide)
  rw [h]
  decide

/-- C2: when a SELL's size exceeds the total remaining size of the queued
BUY lots, the whole queue is consumed at its recorded prices and the
unmatched remainder only decreases the outcome's openPosition (taking it
below zero, modelling a short), contributing nothing further to
realizedProfit; a SELL of size 5 at price 0.50 with no prior BUY yields
realizedProfit 0 and openPosition −5. -/
theorem C2_short_sell :
    (∀ (oi : ℤ) (d : OutcomeAcc) (o : OrderMatched),
      o.outcomeIndex = some oi → o.side = some Side.SELL →
      (∀ b ∈ d.buyQueue, 0 < b.size) → lotSize d.buyQueue ≤ o.size.getD 0 →
      processOrder [(oi, d)] o =
        [(oi, { d with
            realizedProfit := d.realizedProfit +
              ((d.buyQueue.map (fun b => (o.price.getD 0 - b.price) * b.size)).sum),
            openPosition := d.openPosition - o.size.getD 0,
            buyQueue := [] })])
    ∧ calculateWalletProfit [mkOrder "a" Side.SELL 5 0.50 0 1] "a" none
        = ⟨"a", 0, 5/2, 0, 0, 0, -5, [(0, ⟨0, none, 0, -5, 0, 1/2⟩)]⟩ := by
  constructor
  · intro oi d o hoi hside hpos htot
    have hdrain := matchSell_drain (o.price.getD 0) d.buyQueue (o.size.getD 0)
      d.realizedProfit d.openPosition hpos htot
    simp only [processOrder, hoi, hside, hasOutcome, updateOutcome,
      List.any_cons, List.any_nil, List.map_cons, List.map_nil, hdrain]
    simp [hdrain]
    intro h
    linarith
  · decide

theorem C2_short_sell_witness :
    processOrder [((0 : ℤ), ⟨0, none, 0, 2, [⟨2, 1/2⟩]⟩)]
        (mkOrder "a" Side.SELL 5 (3/4) 0 7)
      = [((0 : ℤ), ⟨0, none, 1/2, -3, []⟩)] := by
  have h := C2_short_sell.1 0 ⟨0, none, 0, 2, [⟨2, 1/2⟩]⟩
    (mkOrder "a" Side.SELL 5 (3/4) 0 7) (by decide) (by decide) (by decide) (by decide)
  rw [h]
  decide

/-! ### C3: unrealized profit -/

theorem aggregate_unrealized_none (wl : List OrderMatched) :
    ∀ (m : List (ℤ × OutcomeAcc)) (t : ProfitTotals),
      (List.foldl (aggregateOutcome wl none) t m).unrealized = t.unrealized := by
  intro m
  induction m with
  | nil => intro t; rfl
  | cons e m ih =>
    intro t
    rw [List.foldl_cons, ih]
    simp [aggregateOutcome, unrealizedFor]

/-- C3: per outcome, the unrealized profit is exactly 0 whenever
`openPosition ≤ 0`, or no current-price map is supplied, or the map has
no entry for the outcome — regardless of lot prices; otherwise it equals
`(currentPrice − averageRemainingLotPrice) · openPosition`, where the
average remaining lot price is the volume-weighted price of the lots
still in the FIFO queue (0 for an empty queue).  Without a price map the
wallet-level unrealized profit is 0. -/
theorem C3_unrealized_profit :
    (∀ (cp : Option (List (ℤ × ℚ))) (d : OutcomeAcc),
       d.openPosition ≤ 0 → unrealizedFor cp d = 0)
    ∧ (∀ d : OutcomeAcc, unrealizedFor none d = 0)
    ∧ (∀ (cp : List (ℤ × ℚ)) (d : OutcomeAcc),
       priceLookup cp d.outcomeIndex = none → unrealizedFor (some cp) d = 0)
    ∧ (∀ (cp : List (ℤ × ℚ)) (d : OutcomeAcc) (current : ℚ),
       priceLookup cp d.outcomeIndex = some current → 0 < d.openPosition →
       unrealizedFor (some cp) d
         = (current - avgRemainingBuyPrice d.buyQueue) * d.openPosition)
    ∧ avgRemainingBuyPrice [] = 0
    ∧ (∀ q : List Lot, 0 < lotSize q → avgRemainingBuyPrice q = lotValue q / lotSize q)
    ∧ (∀ (orders : List OrderMatched) (wallet : String),
       (calculateWalletProfit orders wallet none).unrealizedProfit = 0) := by
  refine ⟨?_, ?_, ?_, ?_, ?_, ?_, ?_⟩
  · intro cp d h
    cases cp with
    | none => rfl
    | some cp =>
      cases hl : priceLookup cp d.outcomeIndex with
      | none => simp [unrealizedFor, hl]
      | some c => simp [unrealizedFor, hl, not_lt.mpr h]
  · intro d
    rfl
  · intro cp d hl
    simp [unrealizedFor, hl]
  · intro cp d current hl hpos
    simp [unrealizedFor, hl, hpos]
  · decide
  · intro q h
    simp [avgRemainingBuyPrice, h]
  · intro orders wallet
    exact aggregate_unrealized_none _ _ _

theorem C3_unrealized_profit_witness :
    unrealizedFor (some [((0 : ℤ), (3/4 : ℚ))]) ⟨0, none, 0, 4, [⟨4, 1/2⟩]⟩
      = (3/4 - 1/2) * 4 := by
  have h := C3_unrealized_profit.2.2.2.1 [((0 : ℤ), (3/4 : ℚ))]
    ⟨0, none, 0, 4, [⟨4, 1/2⟩]⟩ (3/4) (by decide) (by decide)
  rw [h]
  decide

/-! ### C4: trades without an outcome index -/

theorem foldl_processOrder_insertByTs_skip (t : OrderMatched) (ht : t.outcomeIndex = none) :
    ∀ (l : List OrderMatched) (s : List (ℤ × OutcomeAcc)),
      List.foldl processOrder s (insertByTs t l) = List.foldl processOrder s l := by
  intro l
  induction l with
  | nil =>
    intro s
    simp [insertByTs, processOrder, ht]
  | cons x xs ih =>
    intro s
    by_cases h : tsKey t ≤ tsKey x
    · simp [insertByTs, h, processOrder, ht]
    · simp only [insertByTs, if_neg h, List.foldl_cons]
      exact ih (processOrder s x)

theorem filter_insertByTs_neg (t : OrderMatched) (p : OrderMatched → Bool)
    (hp : p t = false) : ∀ l : List OrderMatched, (insertByTs t l).filter p = l.filter p := by
  intro l
  induction l with
  | nil => simp [insertByTs, hp]
  | cons x xs ih =>
    by_cases h : tsKey t ≤ tsKey x
    · simp [insertByTs, h, List.filter_cons, hp]
    · simp only [insertByTs, if_neg h, List.filter_cons, ih]

/-- C4: a trade whose `outcomeIndex` is undefined is skipped entirely by
`calculateWalletProfit` — adding it changes nothing, neither an outcome
bucket nor totalCost/totalRevenue/realizedProfit/openPosition — while
`getWalletStats` still counts the same trade in the wallet's trade
counts, per-side volumes and volume-weighted average prices. -/
theorem C4_missing_outcome_index :
    ∀ (orders : List OrderMatched) (t : OrderMatched) (wallet : String)
      (cp : Option (List (ℤ × ℚ))),
      t.outcomeIndex = none →
      (calculateWalletProfit (t :: orders) wallet cp
          = calculateWalletProfit orders wallet cp)
      ∧ (walletKeyMatches t wallet = true →
          (getWalletStats (t :: orders) wallet).totalTrades
            = (getWalletStats orders wallet).totalTrades + 1
          ∧ (t.side = some Side.BUY →
              (getWalletStats (t :: orders) wallet).buyCount
                = (getWalletStats orders wallet).buyCount + 1
              ∧ (getWalletStats (t :: orders) wallet).totalBuyVolume
                = t.size.getD 0 + (getWalletStats orders wallet).totalBuyVolume
              ∧ (getWalletStats (t :: orders) wallet).averageBuyPrice
                = (if 0 < t.size.getD 0 + (getWalletStats orders wallet).totalBuyVolume
                   then (t.size.getD 0 * t.price.getD 0
                          + sumValue (List.filter isBuy
                              (List.filter (fun o => walletKeyMatches o wallet) orders)))
                        / (t.size.getD 0 + (getWalletStats orders wallet).totalBuyVolume)
                   else 0))
          ∧ (t.side = some Side.SELL →
              (getWalletStats (t :: orders) wallet).sellCount
                = (getWalletStats orders wallet).sellCount + 1
              ∧ (getWalletStats (t :: orders) wallet).totalSellVolume
                = t.size.getD 0 + (getWalletStats orders wallet).totalSellVolume
              ∧ (getWalletStats (t :: orders) wallet).averageSellPrice
                = (if 0 < t.size.getD 0 + (getWalletStats orders wallet).totalSellVolume
                   then (t.size.getD 0 * t.price.getD 0
                          + sumValue (List.filter isSell
                              (List.filter (fun o => walletKeyMatches o wallet) orders)))
                        / (t.size.getD 0 + (getWalletStats orders wallet).totalSellVolume)
                   else 0))) := by
  intro orders t wallet cp ht
  constructor
  · by_cases hw : walletKeyMatches t wallet
    · have hfl : (t :: orders).filter (fun o => walletKeyMatches o wallet)
          = t :: orders.filter (fun o => walletKeyMatches o wallet) := by
        simp [List.filter_cons, hw]
      have hsort : sortByTs (t :: orders.filter (fun o => walletKeyMatches o wallet))
          = insertByTs t (sortByTs (orders.filter (fun o => walletKeyMatches o wallet))) := rfl
      have hagg : aggregateOutcome
            (insertByTs t (sortByTs (orders.filter (fun o => walletKeyMatches o wallet)))) cp
          = aggregateOutcome (sortByTs (orders.filter (fun o => walletKeyMatches o wallet))) cp := by
        funext s e
        simp only [aggregateOutcome]
        rw [filter_insertByTs_neg t _ (by simp [ht]) _]
      simp only [calculateWalletProfit, hfl, hsort,
        foldl_processOrder_insertByTs_skip t ht, hagg]
    · have hfl : (t :: orders).filter (fun o => walletKeyMatches o wallet)
          = orders.filter (fun o => walletKeyMatches o wallet) := by
        simp [List.filter_cons, hw]
      simp only [calculateWalletProfit, hfl]
  · intro hw
    have hfl : List.filter (fun o => walletKeyMatches o wallet) (t :: orders)
        = t :: List.filter (fun o => walletKeyMatches o wallet) orders := by
      simp [List.filter_cons, hw]
    refine ⟨?_, ?_, ?_⟩
    · simp [getWalletStats, hfl]
    · intro hb
      have hbt : isBuy t = true := by simp [isBuy, hb]
      refine ⟨?_, ?_, ?_⟩
      · simp [getWalletStats, hfl, List.filter_cons, hbt]
      · simp [getWalletStats, hfl, List.filter_cons, hbt, sumSize_cons]
      · simp [getWalletStats, hfl, List.filter_cons, hbt, sumSize_cons, sumValue_cons]
    · intro hs
      have hst : isSell t = true := by simp [isSell, hs]
      refine ⟨?_, ?_, ?_⟩
      · simp [getWalletStats, hfl, List.filter_cons, hst]
      · simp [getWalletStats, hfl, List.filter_cons, hst, sumSize_cons]
      · simp [getWalletStats, hfl, List.filter_cons, hst, sumSize_cons, sumValue_cons]

theorem C4_missing_outcome_index_witness :
    calculateWalletProfit
        [⟨"", none, some "a", some Side.BUY, some 3, some (1/2), none, none, some 5⟩,
         mkOrder "a" Side.BUY 2 (1/4) 0 1] "a" none
      = calculateWalletProfit [mkOrder "a" Side.BUY 2 (1/4) 0 1] "a" none
    ∧ (getWalletStats
        [⟨"", none, some "a", some Side.BUY, some 3, some (1/2), none, none, some 5⟩,
         mkOrder "a" Side.BUY 2 (1/4) 0 1] "a").totalTrades
      = (getWalletStats [mkOrder "a" Side.BUY 2 (1/4) 0 1] "a").totalTrades + 1 := by
  have h := C4_missing_outcome_index [mkOrder "a" Side.BUY 2 (1/4) 0 1]
    ⟨"", none, some "a", some Side.BUY, some 3, some (1/2), none, none, some 5⟩
    "a" none (by decide)
  exact ⟨h.1, (h.2 (by decide)).1⟩

def signedSize (o : OrderMatched) : ℚ :=
  if o.side = some Side.BUY then o.size.getD 0
  else if o.side = some Side.SELL then -(o.size.getD 0)
  else 0

def openPosOf (m : List (ℤ × OutcomeAcc)) (oi : ℤ) : ℚ :=
  ((lookupOutcome m oi).map (fun d => d.openPosition)).getD 0

theorem lookupOutcome_cons (a : ℤ) (d : OutcomeAcc) (m : List (ℤ × OutcomeAcc)) (k : ℤ) :
    lookupOutcome ((a, d) :: m) k = if a = k then some d else lookupOutcome m k := by
  by_cases h : a = k
  · rw [lookupOutcome, List.find?_cons_of_pos _ (by simpa using h), if_pos h]
    rfl
  · rw [lookupOutcome, List.find?_cons_of_neg _ (by simpa using h), if_neg h]
    rfl

theorem updateOutcome_cons (a : ℤ) (d : OutcomeAcc) (m : List (ℤ × OutcomeAcc)) (k : ℤ)
    (f : OutcomeAcc → OutcomeAcc) :
    updateOutcome ((a, d) :: m) k f
      = (if a = k then (a, f d) else (a, d)) :: updateOutcome m k f := rfl

theorem hasOutcome_cons (a : ℤ) (d : OutcomeAcc) (m : List (ℤ × OutcomeAcc)) (k : ℤ) :
    hasOutcome ((a, d) :: m) k = (decide (a = k) || hasOutcome m k) := rfl

theorem lookupOutcome_update_self (k : ℤ) (f : OutcomeAcc → OutcomeAcc) :
    ∀ m : List (ℤ × OutcomeAcc),
      lookupOutcome (updateOutcome m k f) k = (lookupOutcome m k).map f := by
  intro m
  induction m with
  | nil => rfl
  | cons p m ih =>
    obtain ⟨a, d⟩ := p
    rw [updateOutcome_cons]
    by_cases h : a = k
    · rw [if_pos h, lookupOutcome_cons, lookupOutcome_cons, if_pos h, if_pos h]
      rfl
    · rw [if_neg h, lookupOutcome_cons, lookupOutcome_cons, if_neg h, if_neg h, ih]

theorem lookupOutcome_update_ne (k k' : ℤ) (f : OutcomeAcc → OutcomeAcc) (h : k ≠ k') :
    ∀ m : List (ℤ × OutcomeAcc),
      lookupOutcome (updateOutcome m k' f) k = lookupOutcome m k := by
  intro m
  induction m with
  | nil => rfl
  | cons p m ih =>
    obtain ⟨a, d⟩ := p
    rw [updateOutcome_cons]
    by_cases hp : a = k'
    · have hak : ¬ a = k := by
        intro hh
        exact h (by rw [← hh, hp])
      rw [if_pos hp, lookupOutcome_cons, lookupOutcome_cons, if_neg hak, if_neg hak, ih]
    · rw [if_neg hp, lookupOutcome_cons, lookupOutcome_cons]
      by_cases hk : a = k
      · rw [if_pos hk, if_pos hk]
      · rw [if_neg hk, if_neg hk, ih]

theorem hasOutcome_false_lookup (k : ℤ) :
    ∀ m : List (ℤ × OutcomeAcc), hasOutcome m k = false → lookupOutcome m k = none := by
  intro m
  induction m with
  | nil => intro _; rfl
  | cons p m ih =>
    obtain ⟨a, d⟩ := p
    intro h
    rw [hasOutcome_cons] at h
    simp only [Bool.or_eq_false_iff, decide_eq_false_iff_not] at h
    rw [lookupOutcome_cons, if_neg h.1]
    exact ih h.2

theorem lookupOutcome_append_self (k : ℤ) (d : OutcomeAcc) :
    ∀ m : List (ℤ × OutcomeAcc), hasOutcome m k = false →
      lookupOutcome (m ++ [(k, d)]) k = some d := by
  intro m
  induction m with
  | nil =>
    intro _
    rw [List.nil_append, lookupOutcome_cons, if_pos rfl]
  | cons p m ih =>
    obtain ⟨a, d'⟩ := p
    intro h
    rw [hasOutcome_cons] at h
    simp only [Bool.or_eq_false_iff, decide_eq_false_iff_not] at h
    rw [List.cons_append, lookupOutcome_cons, if_neg h.1]
    exact ih h.2

theorem lookupOutcome_append_ne (k k' : ℤ) (d : OutcomeAcc) (h : k ≠ k') :
    ∀ m : List (ℤ × OutcomeAcc),
      lookupOutcome (m ++ [(k', d)]) k = lookupOutcome m k := by
  intro m
  induction m with
  | nil =>
    have hne : ¬ (k' = k) := fun hh => h hh.symm
    rw [List.nil_append, lookupOutcome_cons, if_neg hne]
  | cons p m ih =>
    obtain ⟨a, d'⟩ := p
    rw [List.cons_append, lookupOutcome_cons, lookupOutcome_cons]
    by_cases hk : a = k
    · rw [if_pos hk, if_pos hk]
    · rw [if_neg hk, if_neg hk, ih]

theorem hasOutcome_true_lookup (k : ℤ) :
    ∀ m : List (ℤ × OutcomeAcc), hasOutcome m k = true →
      ∃ d, lookupOutcome m k = some d := by
  intro m
  induction m with
  | nil => intro h; simp [hasOutcome] at h
  | cons p m ih =>
    obtain ⟨a, d⟩ := p
    intro h
    by_cases hk : a = k
    · exact ⟨d, by rw [lookupOutcome_cons, if_pos hk]⟩
    · rw [hasOutcome_cons] at h
      simp only [Bool.or_eq_true, decide_eq_true_eq] at h
      rcases h with h | h
      · exact absurd h hk
      · obtain ⟨e, he⟩ := ih h
        exact ⟨e, by rw [lookupOutcome_cons, if_neg hk, he]⟩

theorem openPosOf_update_bucket (m : List (ℤ × OutcomeAcc)) (oi' : ℤ) (o : OrderMatched)
    (f : OutcomeAcc → OutcomeAcc) (d0 : ℚ)
    (hf : ∀ d, (f d).openPosition = d.openPosition + d0) :
    openPosOf (updateOutcome (if hasOutcome m oi' then m
        else m ++ [(oi', ⟨oi', o.outcome, 0, 0, []⟩)]) oi' f) oi'
      = openPosOf m oi' + d0 := by
  by_cases hhas : hasOutcome m oi'
  · obtain ⟨d, hd⟩ := hasOutcome_true_lookup oi' m hhas
    rw [if_pos hhas]
    simp [openPosOf, lookupOutcome_update_self, hd, hf]
  · rw [if_neg hhas]
    have h1 := lookupOutcome_append_self oi' ⟨oi', o.outcome, 0, 0, []⟩ m
      (by simpa using hhas)
    have h0 := hasOutcome_false_lookup oi' m (by simpa using hhas)
    simp [openPosOf, lookupOutcome_update_self, h1, h0, hf]

theorem openPos_processOrder (m : List (ℤ × OutcomeAcc)) (o : OrderMatched) (oi : ℤ)
    (hsz : 0 ≤ o.size.getD 0) :
    openPosOf (processOrder m o) oi
      = openPosOf m oi + (if o.outcomeIndex = some oi then signedSize o else 0) := by
  cases hoi : o.outcomeIndex with
  | none => simp [processOrder, hoi]
  | some oi' =>
    have hpo : processOrder m o = updateOutcome (if hasOutcome m oi' then m
        else m ++ [(oi', ⟨oi', o.outcome, 0, 0, []⟩)]) oi'
        (fun d =>
          if o.side = some Side.BUY then
            { d with buyQueue := d.buyQueue ++ [⟨o.size.getD 0, o.price.getD 0⟩],
                     openPosition := d.openPosition + o.size.getD 0 }
          else if o.side = some Side.SELL then
            let s := matchSell (o.price.getD 0) d.buyQueue (o.size.getD 0)
              d.realizedProfit d.openPosition
            { d with realizedProfit := s.realized, buyQueue := s.queue,
                     openPosition := if 0 < s.remaining then s.openPos - s.remaining
                                     else s.openPos }
          else d) := by
      simp only [processOrder, hoi]
    rw [hpo]
    by_cases heq : oi' = oi
    · subst heq
      rw [if_pos (rfl : (some oi' : Option ℤ) = some oi')]
      refine openPosOf_update_bucket m oi' o _ (signedSize o) ?_
      intro d
      cases hside : o.side with
      | none => simp [signedSize, hside]
      | some sd =>
        cases sd with
        | BUY => simp [signedSize, hside]
        | SELL =>
          obtain ⟨hnn, hop⟩ := matchSell_openPos (o.price.getD 0) d.buyQueue
            (o.size.getD 0) d.realizedProfit d.openPosition hsz
          simp only [hside, signedSize, Option.some.injEq, reduceCtorEq, if_false, if_true]
          rw [hop]
          ring
    · have hne : ¬ ((some oi' : Option ℤ) = some oi) :=
        fun hh => heq (Option.some.inj hh)
      rw [if_neg hne, add_zero]
      by_cases hhas : hasOutcome m oi'
      · rw [if_pos hhas, openPosOf,
          lookupOutcome_update_ne oi oi' _ (fun hh => heq hh.symm)]
        rfl
      · rw [if_neg hhas, openPosOf,
          lookupOutcome_update_ne oi oi' _ (fun hh => heq hh.symm),
          lookupOutcome_append_ne oi oi' _ (fun hh => heq hh.symm)]
        rfl

theorem openPos_foldl (oi : ℤ) :
    ∀ (l : List OrderMatched) (m : List (ℤ × OutcomeAcc)),
      (∀ o ∈ l, 0 ≤ o.size.getD 0) →
      openPosOf (List.foldl processOrder m l) oi
        = openPosOf m oi
          + ((l.filter (fun o => decide (o.outcomeIndex = some oi))).map signedSize).sum := by
  intro l
  induction l with
  | nil =>
    intro m _
    simp
  | cons o l ih =>
    intro m hsz
    rw [List.foldl_cons, ih _ (fun x hx => hsz x (List.mem_cons_of_mem _ hx)),
      openPos_processOrder m o oi (hsz o (List.mem_cons_self _ _)), List.filter_cons]
    by_cases h : o.outcomeIndex = some oi
    · rw [if_pos h,
        if_pos (show decide (o.outcomeIndex = some oi) = true by simp [h]),
        List.map_cons, List.sum_cons]
      ring
    · rw [if_neg h, add_zero,
        if_neg (show ¬ decide (o.outcomeIndex = some oi) = true by simp [h])]

/-- C5: after processing any list of trades, each outcome's
`openPosition` equals the sum of the sizes of its processed BUY trades
minus the sum of the sizes of its processed SELL trades (missing sizes
taken as 0, sizes non-negative as in the data model); consequently a BUY
arriving after an uncovered short still pushes its full size as a new
FIFO lot, so `openPosition` can be strictly smaller than the total
remaining lot size of the queue (SELL 5 then BUY 3 leaves openPosition
−2 with a queue holding a full lot of size 3). -/
theorem C5_open_position_invariant :
    (∀ (l : List OrderMatched) (oi : ℤ),
      (∀ o ∈ l, 0 ≤ o.size.getD 0) →
      openPosOf (List.foldl processOrder [] l) oi
        = ((l.filter (fun o => decide (o.outcomeIndex = some oi))).map signedSize).sum)
    ∧ List.foldl processOrder []
        [mkOrder "a" Side.SELL 5 (1/2) 0 1, mkOrder "a" Side.BUY 3 (2/5) 0 2]
        = [(0, ⟨0, none, 0, -2, [⟨3, 2/5⟩]⟩)]
    ∧ ((-2 : ℚ) < lotSize [⟨3, (2/5 : ℚ)⟩]) := by
  refine ⟨?_, by decide, by decide⟩
  intro l oi h
  have := openPos_foldl oi l [] h
  simpa [openPosOf, lookupOutcome] using this

theorem C5_open_position_invariant_witness :
    openPosOf (List.foldl processOrder []
        [mkOrder "a" Side.BUY 4 (1/2) 0 1, mkOrder "a" Side.SELL 1 (3/5) 0 2]) 0
      = (([mkOrder "a" Side.BUY 4 (1/2) 0 1,
           mkOrder "a" Side.SELL 1 (3/5) 0 2].filter
            (fun o => decide (o.outcomeIndex = some 0))).map signedSize).sum :=
  C5_open_position_invariant.1
    [mkOrder "a" Side.BUY 4 (1/2) 0 1, mkOrder "a" Side.SELL 1 (3/5) 0 2] 0 (by decide)

/-! ### C6: fixed-interval bucketing -/

/-- C6: `trackPriceOverTime` drops trades lacking a timestamp (in its
definition), then walks consecutive half-open windows of the interval
length starting at the first timestamp, emitting exactly one snapshot
per non-empty window — timestamped at the window start with that
window's volume-weighted average price, volume and trade count — and
omitting empty windows; with interval 60 over trades at timestamps
0, 30, 90 (prices 10, 20, 30, size 1) it returns exactly the two
snapshots [0,60) → price 15, volume 2 and [60,120) → price 30,
volume 1. -/
theorem C6_interval_bucketing :
    (∀ (sorted : List OrderMatched) (interval : ℤ) (oi : Option ℤ) (last : ℤ)
        (fuel : ℕ) (start : ℤ),
      bucketLoop sorted interval oi last fuel start
        = (windowStarts interval last fuel start).filterMap (fun ws =>
            if (bucketOrders sorted ws (ws + interval)).length > 0
            then some (snapshotOf (bucketOrders sorted ws (ws + interval)) ws oi)
            else none))
    ∧ trackPriceOverTime
        [mkOrder "a" Side.BUY 1 10 0 0, mkOrder "a" Side.BUY 1 20 0 30,
         mkOrder "a" Side.BUY 1 30 0 90] 60 none
        = [⟨0, 15, none, none, 2, 2⟩, ⟨60, 30, none, none, 1, 1⟩] := by
  constructor
  · intro sorted interval oi last fuel
    induction fuel with
    | zero => intro start; rfl
    | succ fuel ih =>
      intro start
      simp only [bucketLoop, windowStarts]
      by_cases h : start ≤ last
      · simp only [if_pos h, List.filterMap_cons]
        by_cases hb : (bucketOrders sorted start (start + interval)).length > 0
        · simp only [if_pos hb, ih]
        · simp only [if_neg hb, ih]
      · simp only [if_neg h, List.filterMap_nil]
  · decide

/-! ### C7: price-level aggregation -/

/-- C7: `analyzeByPrice` groups trades by exact numeric price equality,
excludes every trade lacking a price or a wallet, counts distinct
buying/selling wallets case-insensitively, and accumulates per-side
volumes, trade counts and totals; the two-trade example yields one entry
at price 50 with buyVolume 3, sellVolume 2, totalVolume 5, one buying
and one selling wallet, and two same-wallet BUYs spelled "0xABC" and
"0xabc" count as a single buying wallet. -/
theorem C7_price_level_aggregation :
    (∀ (orders : List OrderMatched) (oi : Option ℤ) (t : OrderMatched),
      t.price = none ∨ t.wallet = none →
      analyzeByPrice (t :: orders) oi = analyzeByPrice orders oi)
    ∧ analyzeByPrice [mkOrder "A" Side.BUY 3 50 0 0, mkOrder "B" Side.SELL 2 50 0 1] none
        = [(50, ⟨50, 1, 1, 3, 2, 1, 1, 5, 2, ["a", "b"], none⟩)]
    ∧ analyzeByPrice
        [mkOrder "0xABC" Side.BUY 1 50 0 0, mkOrder "0xabc" Side.BUY 2 50 0 1] none
        = [(50, ⟨50, 1, 0, 3, 0, 2, 0, 3, 2, ["0xabc"], none⟩)] := by
  refine ⟨?_, by decide, by decide⟩
  intro orders oi t ht
  have hstep : ∀ m, priceStep oi m t = m := by
    intro m
    rcases ht with h | h
    · simp [priceStep, h]
    · cases hp : t.price with
      | none => simp [priceStep, hp]
      | some p => simp [priceStep, hp, h]
  cases oi with
  | none =>
    simp only [analyzeByPrice, List.foldl_cons, hstep]
  | some i =>
    simp only [analyzeByPrice, List.filter_cons]
    by_cases hf : t.outcomeIndex = some i
    · simp only [if_pos (show decide (t.outcomeIndex = some i) = true by simp [hf]),
        List.foldl_cons, hstep]
    · simp only [if_neg (show ¬ decide (t.outcomeIndex = some i) = true by simp [hf])]

theorem C7_price_level_aggregation_witness :
    analyzeByPrice [⟨"", none, some "a", some Side.BUY, some 1, none, none, some 0, some 1⟩,
        mkOrder "a" Side.BUY 3 50 0 0] none
      = analyzeByPrice [mkOrder "a" Side.BUY 3 50 0 0] none :=
  C7_price_level_aggregation.1 [mkOrder "a" Side.BUY 3 50 0 0] none
    ⟨"", none, some "a", some Side.BUY, some 1, none, none, some 0, some 1⟩ (Or.inl rfl)

/-! ### C8: exact-timestamp tracking -/

theorem mem_insertInt (x : ℤ) :
    ∀ (l : List ℤ) (z : ℤ), z ∈ insertInt x l ↔ z = x ∨ z ∈ l := by
  intro l
  induction l with
  | nil =>
    intro z
    simp [insertInt]
  | cons y ys ih =>
    intro z
    by_cases h : x ≤ y
    · simp [insertInt, h]
    · simp only [insertInt, if_neg h, List.mem_cons, ih]
      tauto

theorem insertInt_pairwise (x : ℤ) :
    ∀ l : List ℤ, List.Pairwise (· ≤ ·) l → List.Pairwise (· ≤ ·) (insertInt x l) := by
  intro l
  induction l with
  | nil =>
    intro _
    simp [insertInt]
  | cons y ys ih =>
    intro h
    rw [List.pairwise_cons] at h
    by_cases hx : x ≤ y
    · rw [insertInt, if_pos hx, List.pairwise_cons]
      constructor
      · intro z hz
        rcases List.mem_cons.mp hz with rfl | hz
        · exact hx
        · exact le_trans hx (h.1 z hz)
      · rw [List.pairwise_cons]
        exact h
    · rw [insertInt, if_neg hx, List.pairwise_cons]
      constructor
      · intro z hz
        rcases (mem_insertInt x ys z).mp hz with rfl | hz
        · exact le_of_not_le hx
        · exact h.1 z hz
      · exact ih h.2
  
theorem sortInts_pairwise : ∀ l : List ℤ, List.Pairwise (· ≤ ·) (sortInts l) := by
  intro l
  induction l with
  | nil => exact List.Pairwise.nil
  | cons x xs ih => exact insertInt_pairwise x _ ih

theorem detailedSnapshotOf_zero_sides (ts : ℤ) (oi : Option ℤ) (g : List OrderMatched) :
    ((detailedSnapshotOf ts oi g).buyRecords = 0 →
      (detailedSnapshotOf ts oi g).buyPrice = 0
      ∧ (detailedSnapshotOf ts oi g).buyVolume = 0
      ∧ (detailedSnapshotOf ts oi g).buyWallets = 0)
    ∧ ((detailedSnapshotOf ts oi g).sellRecords = 0 →
      (detailedSnapshotOf ts oi g).sellPrice = 0
      ∧ (detailedSnapshotOf ts oi g).sellVolume = 0
      ∧ (detailedSnapshotOf ts oi g).sellWallets = 0) := by
  constructor
  · intro h
    have hb : g.filter isBuy = [] :=
      List.length_eq_zero.mp (by simpa [detailedSnapshotOf] using h)
    simp [detailedSnapshotOf, hb, sumSize, sumValue, walletSetOf]
  · intro h
    have hs : g.filter isSell = [] :=
      List.length_eq_zero.mp (by simpa [detailedSnapshotOf] using h)
    simp [detailedSnapshotOf, hs, sumSize, sumValue, walletSetOf]

/-- C8: `trackPriceByTimestamp` groups timestamp-bearing trades by exact
`onChainTimestamp` value and returns snapshots in ascending timestamp
order; BUY and SELL statistics are computed independently per side, and
a side with zero trades reports price 0 and zero volume/wallet counts
instead of being omitted (example: a lone BUY at timestamp 3 yields
sellPrice 0, sellVolume 0, sellWallets 0 in an ordered two-snapshot
result). -/
theorem C8_timestamp_tracking :
    (∀ (orders : List OrderMatched) (oi : Option ℤ),
      List.Pairwise (fun s t => s.timestamp ≤ t.timestamp)
        (trackPriceByTimestamp orders oi))
    ∧ (∀ (orders : List OrderMatched) (oi : Option ℤ) (s : DetailedPriceSnapshot),
        s ∈ trackPriceByTimestamp orders oi →
        (s.buyRecords = 0 →
          s.buyPrice = 0 ∧ s.buyVolume = 0 ∧ s.buyWallets = 0)
        ∧ (s.sellRecords = 0 →
          s.sellPrice = 0 ∧ s.sellVolume = 0 ∧ s.sellWallets = 0))
    ∧ trackPriceByTimestamp
        [mkOrder "a" Side.BUY 2 10 0 5, mkOrder "b" Side.SELL 1 12 0 5,
         mkOrder "c" Side.BUY 1 8 0 3] none
        = [⟨3, none, none, 8, 1, 1, 1, 0, 0, 0, 0, 1, 1, 1⟩,
           ⟨5, none, none, 10, 1, 1, 2, 12, 1, 1, 1, 2, 2, 3⟩] := by
  refine ⟨?_, ?_, by decide⟩
  · intro orders oi
    simp only [trackPriceByTimestamp]
    split
    · exact List.Pairwise.nil
    · split
      · exact List.Pairwise.nil
      · rw [List.pairwise_map]
        exact sortInts_pairwise _
  · intro orders oi s hs
    simp only [trackPriceByTimestamp] at hs
    split at hs
    · exact absurd hs (List.not_mem_nil s)
    · split at hs
      · exact absurd hs (List.not_mem_nil s)
      · obtain ⟨ts, hts, rfl⟩ := List.mem_map.mp hs
        exact detailedSnapshotOf_zero_sides ts oi _

theorem C8_timestamp_tracking_witness :
    ((⟨3, none, none, 8, 1, 1, 1, 0, 0, 0, 0, 1, 1, 1⟩ : DetailedPriceSnapshot).sellPrice = 0
     ∧ (⟨3, none, none, 8, 1, 1, 1, 0, 0, 0, 0, 1, 1, 1⟩ : DetailedPriceSnapshot).sellVolume = 0
     ∧ (⟨3, none, none, 8, 1, 1, 1, 0, 0, 0, 0, 1, 1, 1⟩ :
          DetailedPriceSnapshot).sellWallets = 0) := by
  have h := C8_timestamp_tracking.2.1
    [mkOrder "a" Side.BUY 2 10 0 5, mkOrder "b" Side.SELL 1 12 0 5,
     mkOrder "c" Side.BUY 1 8 0 3] none
    ⟨3, none, none, 8, 1, 1, 1, 0, 0, 0, 0, 1, 1, 1⟩ (by decide)
  exact h.2 (by decide)

/-! ### C9: wallet-statistics averages -/

/-- C9: `getWalletStats` returns `averageBuyPrice = Σ(size·price)/Σ(size)`
over the wallet's BUY trades and `averageSellPrice` likewise over its
SELL trades, each defined as 0 when the corresponding total volume is 0
(no division by zero, total functions never throw), and `totalVolume`
always equals `totalBuyVolume + totalSellVolume`. -/
theorem C9_wallet_stats_averages :
    ∀ (orders : List OrderMatched) (wallet : String),
      (getWalletStats orders wallet).totalVolume
        = (getWalletStats orders wallet).totalBuyVolume
          + (getWalletStats orders wallet).totalSellVolume
      ∧ ((getWalletStats orders wallet).totalBuyVolume = 0 →
          (getWalletStats orders wallet).averageBuyPrice = 0)
      ∧ (0 < (getWalletStats orders wallet).totalBuyVolume →
          (getWalletStats orders wallet).averageBuyPrice
            = (((orders.filter (fun o => walletKeyMatches o wallet)).filter isBuy).map
                (fun o => o.size.getD 0 * o.price.getD 0)).sum
              / (((orders.filter (fun o => walletKeyMatches o wallet)).filter isBuy).map
                  (fun o => o.size.getD 0)).sum)
      ∧ ((getWalletStats orders wallet).totalSellVolume = 0 →
          (getWalletStats orders wallet).averageSellPrice = 0)
      ∧ (0 < (getWalletStats orders wallet).totalSellVolume →
          (getWalletStats orders wallet).averageSellPrice
            = (((orders.filter (fun o => walletKeyMatches o wallet)).filter isSell).map
                (fun o => o.size.getD 0 * o.price.getD 0)).sum
              / (((orders.filter (fun o => walletKeyMatches o wallet)).filter isSell).map
                  (fun o => o.size.getD 0)).sum) := by
  intro orders wallet
  refine ⟨rfl, ?_, ?_, ?_, ?_⟩
  · intro h
    simp only [getWalletStats] at h ⊢
    rw [h, if_neg (lt_irrefl 0)]
  · intro h
    simp only [getWalletStats] at h ⊢
    rw [if_pos h, sumValue_eq_sum_map, sumSize_eq_sum_map]
  · intro h
    simp only [getWalletStats] at h ⊢
    rw [h, if_neg (lt_irrefl 0)]
  · intro h
    simp only [getWalletStats] at h ⊢
    rw [if_pos h, sumValue_eq_sum_map, sumSize_eq_sum_map]

theorem C9_wallet_stats_averages_witness :
    (getWalletStats [mkOrder "a" Side.BUY 2 (1/2) 0 1, mkOrder "a" Side.BUY 2 (1/4) 0 2]
        "a").averageBuyPrice
      = ((([mkOrder "a" Side.BUY 2 (1/2) 0 1, mkOrder "a" Side.BUY 2 (1/4) 0 2].filter
            (fun o => walletKeyMatches o "a")).filter isBuy).map
          (fun o => o.size.getD 0 * o.price.getD 0)).sum
        / ((([mkOrder "a" Side.BUY 2 (1/2) 0 1, mkOrder "a" Side.BUY 2 (1/4) 0 2].filter
              (fun o => walletKeyMatches o "a")).filter isBuy).map
            (fun o => o.size.getD 0)).sum := by
  have h := C9_wallet_stats_averages
    [mkOrder "a" Side.BUY 2 (1/2) 0 1, mkOrder "a" Side.BUY 2 (1/4) 0 2] "a"
  exact h.2.2.1 (by decide)

/-! ### C10: case-insensitive wallet identity -/

/-- Normalization of one order's wallet to its lowercased spelling. -/
def normalizeWallet (o : OrderMatched) : OrderMatched :=
  { o with wallet := o.wallet.map toLowerCase }

theorem charToNat_ofNat {n : ℕ} (h : n.isValidChar) : (Char.ofNat n).toNat = n := by
  rw [Char.ofNat, dif_pos h]
  rfl

theorem charToLower_idem (c : Char) : c.toLower.toLower = c.toLower := by
  by_cases h : c.toNat ≥ 65 ∧ c.toNat ≤ 90
  · have h1 : c.toLower = Char.ofNat (c.toNat + 32) := by
      simp only [Char.toLower]
      rw [if_pos h]
    have hv : (c.toNat + 32).isValidChar := Or.inl (by omega)
    have ht : (Char.ofNat (c.toNat + 32)).toNat = c.toNat + 32 := charToNat_ofNat hv
    rw [h1]
    simp only [Char.toLower, ht]
    rw [if_neg (by omega)]
  · have h1 : c.toLower = c := by
      simp only [Char.toLower]
      rw [if_neg h]
    rw [h1, h1]

theorem toLowerCase_idem (s : String) : toLowerCase (toLowerCase s) = toLowerCase s := by
  simp only [toLowerCase, List.map_map]
  congr 1
  apply List.map_congr_left
  intro c _
  exact charToLower_idem c

theorem toLowerCase_eq_empty (s : String) : (toLowerCase s = "") ↔ (s = "") := by
  constructor
  · intro h
    have hd : (toLowerCase s).data = ([] : List Char) := by rw [h]
    have hmap : s.data.map Char.toLower = [] := hd
    have hnil : s.data = [] := List.map_eq_nil_iff.mp hmap
    cases s with
    | mk data =>
      simp only at hnil
      rw [hnil]
  · intro h
    rw [h]
    rfl

theorem walletKeyMatches_normalize (o : OrderMatched) (w : String) :
    walletKeyMatches (normalizeWallet o) w = walletKeyMatches o w := by
  cases hw : o.wallet with
  | none => simp [normalizeWallet, walletKeyMatches, hw]
  | some s => simp [normalizeWallet, walletKeyMatches, hw, toLowerCase_idem]

theorem walletKeyMatches_congr (o : OrderMatched) (w w' : String)
    (h : toLowerCase w = toLowerCase w') :
    walletKeyMatches o w = walletKeyMatches o w' := by
  cases hw : o.wallet with
  | none => simp [walletKeyMatches, hw]
  | some s => simp [walletKeyMatches, hw, h]

theorem filter_map_normalize (p : OrderMatched → Bool)
    (hp : ∀ o, p (normalizeWallet o) = p o) :
    ∀ l : List OrderMatched,
      (l.map normalizeWallet).filter p = (l.filter p).map normalizeWallet := by
  intro l
  induction l with
  | nil => rfl
  | cons o l ih =>
    by_cases h : p o
    · simp only [List.map_cons, List.filter_cons, hp, h, if_pos, ih]
    · simp only [List.map_cons, List.filter_cons, hp o, ih]
      rw [if_neg (by simp [h]), if_neg (by simp [h])]

theorem insertByTs_map_normalize (o : OrderMatched) :
    ∀ l : List OrderMatched,
      insertByTs (normalizeWallet o) (l.map normalizeWallet)
        = (insertByTs o l).map normalizeWallet := by
  intro l
  induction l with
  | nil => rfl
  | cons x xs ih =>
    have hts : tsKey (normalizeWallet x) = tsKey x := rfl
    have hts2 : tsKey (normalizeWallet o) = tsKey o := rfl
    by_cases h : tsKey o ≤ tsKey x
    · simp only [List.map_cons, insertByTs, hts, hts2, if_pos h]
    · simp only [List.map_cons, insertByTs, hts, hts2, if_neg h, ih]

theorem sortByTs_map_normalize :
    ∀ l : List OrderMatched,
      sortByTs (l.map normalizeWallet) = (sortByTs l).map normalizeWallet := by
  intro l
  induction l with
  | nil => rfl
  | cons o l ih =>
    show insertByTs (normalizeWallet o) (sortByTs (l.map normalizeWallet))
      = (insertByTs o (sortByTs l)).map normalizeWallet
    rw [ih, insertByTs_map_normalize]

theorem processOrder_normalize (m : List (ℤ × OutcomeAcc)) (o : OrderMatched) :
    processOrder m (normalizeWallet o) = processOrder m o := rfl

theorem foldl_processOrder_map_normalize :
    ∀ (l : List OrderMatched) (s : List (ℤ × OutcomeAcc)),
      List.foldl processOrder s (l.map normalizeWallet) = List.foldl processOrder s l := by
  intro l
  induction l with
  | nil => intro s; rfl
  | cons o l ih =>
    intro s
    rw [List.map_cons, List.foldl_cons, List.foldl_cons, processOrder_normalize]
    exact ih _

theorem sumSize_map_normalize : ∀ l : List OrderMatched,
    sumSize (l.map normalizeWallet) = sumSize l := by
  intro l
  induction l with
  | nil => rfl
  | cons o l ih =>
    rw [List.map_cons, sumSize_cons, sumSize_cons, ih]
    rfl

theorem sumValue_map_normalize : ∀ l : List OrderMatched,
    sumValue (l.map normalizeWallet) = sumValue l := by
  intro l
  induction l with
  | nil => rfl
  | cons o l ih =>
    rw [List.map_cons, sumValue_cons, sumValue_cons, ih]
    rfl

theorem getWalletStats_map_normalize (orders : List OrderMatched) (w : String) :
    getWalletStats (orders.map normalizeWallet) w = getWalletStats orders w := by
  simp only [getWalletStats,
    filter_map_normalize (fun o => walletKeyMatches o w)
      (fun o => walletKeyMatches_normalize o w),
    filter_map_normalize isBuy (fun o => rfl),
    filter_map_normalize isSell (fun o => rfl),
    sumSize_map_normalize, sumValue_map_normalize, List.length_map]

theorem calculateWalletProfit_map_normalize (orders : List OrderMatched) (w : String)
    (cp : Option (List (ℤ × ℚ))) :
    calculateWalletProfit (orders.map normalizeWallet) w cp
      = calculateWalletProfit orders w cp := by
  have hagg : aggregateOutcome
        ((sortByTs (orders.filter (fun o => walletKeyMatches o w))).map normalizeWallet) cp
      = aggregateOutcome (sortByTs (orders.filter (fun o => walletKeyMatches o w))) cp := by
    funext t e
    simp only [aggregateOutcome,
      filter_map_normalize (fun o => decide (o.outcomeIndex = some e.1)) (fun o => rfl),
      filter_map_normalize isBuy (fun o => rfl),
      filter_map_normalize isSell (fun o => rfl),
      sumSize_map_normalize, sumValue_map_normalize]
  simp only [calculateWalletProfit,
    filter_map_normalize (fun o => walletKeyMatches o w)
      (fun o => walletKeyMatches_normalize o w),
    sortByTs_map_normalize, foldl_processOrder_map_normalize, hagg]

theorem priceStep_normalize (oi : Option ℤ) (m : List (ℚ × PriceAcc)) (o : OrderMatched) :
    priceStep oi m (normalizeWallet o) = priceStep oi m o := by
  cases hp : o.price with
  | none =>
    have hp' : (normalizeWallet o).price = none := hp
    simp only [priceStep, hp, hp']
  | some pr =>
    have hp' : (normalizeWallet o).price = some pr := hp
    cases hw : o.wallet with
    | none =>
      have hw' : (normalizeWallet o).wallet = none := by
        simp [normalizeWallet, hw]
      simp only [priceStep, hp, hp', hw, hw']
    | some w =>
      have hw' : (normalizeWallet o).wallet = some (toLowerCase w) := by
        simp [normalizeWallet, hw]
      have hside : (normalizeWallet o).side = o.side := rfl
      have hsize : (normalizeWallet o).size = o.size := rfl
      by_cases he : w = ""
      · have he' : toLowerCase w = "" := (toLowerCase_eq_empty w).mpr he
        simp only [priceStep, hp, hp', hw, hw', if_pos he, if_pos he']
      · have he' : ¬ (toLowerCase w = "") := fun hh => he ((toLowerCase_eq_empty w).mp hh)
        simp only [priceStep, hp, hp', hw, hw', if_neg he, if_neg he', toLowerCase_idem,
          hside, hsize]

theorem foldl_priceStep_map_normalize (oi : Option ℤ) :
    ∀ (l : List OrderMatched) (m : List (ℚ × PriceAcc)),
      List.foldl (priceStep oi) m (l.map normalizeWallet)
        = List.foldl (priceStep oi) m l := by
  intro l
  induction l with
  | nil => intro m; rfl
  | cons o l ih =>
    intro m
    rw [List.map_cons, List.foldl_cons, List.foldl_cons, priceStep_normalize]
    exact ih _

theorem analyzeByPrice_map_normalize (orders : List OrderMatched) (oi : Option ℤ) :
    analyzeByPrice (orders.map normalizeWallet) oi = analyzeByPrice orders oi := by
  cases oi with
  | none =>
    simp only [analyzeByPrice, foldl_priceStep_map_normalize]
  | some i =>
    simp only [analyzeByPrice,
      filter_map_normalize (fun o => decide (o.outcomeIndex = some i)) (fun o => rfl),
      foldl_priceStep_map_normalize]

/-- `mapGroups` applies the wallet normalization inside every timestamp group. -/
def mapGroupsNormalize (m : List (ℤ × List OrderMatched)) : List (ℤ × List OrderMatched) :=
  m.map (fun p => (p.1, p.2.map normalizeWallet))

theorem mapGroupsNormalize_cons (a : ℤ) (g : List OrderMatched)
    (m : List (ℤ × List OrderMatched)) :
    mapGroupsNormalize ((a, g) :: m)
      = (a, g.map normalizeWallet) :: mapGroupsNormalize m := rfl

theorem mapGroups_any (ts : ℤ) : ∀ m : List (ℤ × List OrderMatched),
    (mapGroupsNormalize m).any (fun p => decide (p.1 = ts))
      = m.any (fun p => decide (p.1 = ts)) := by
  intro m
  induction m with
  | nil => rfl
  | cons p m ih =>
    obtain ⟨a, g⟩ := p
    rw [mapGroupsNormalize_cons, List.any_cons, List.any_cons, ih]

theorem mapGroups_update (ts : ℤ) (o : OrderMatched) :
    ∀ m : List (ℤ × List OrderMatched),
      (mapGroupsNormalize m).map
          (fun p => if p.1 = ts then (p.1, p.2 ++ [normalizeWallet o]) else p)
        = mapGroupsNormalize (m.map (fun p => if p.1 = ts then (p.1, p.2 ++ [o]) else p)) := by
  intro m
  induction m with
  | nil => rfl
  | cons p m ih =>
    obtain ⟨a, g⟩ := p
    rw [mapGroupsNormalize_cons, List.map_cons, List.map_cons]
    by_cases h : a = ts
    · rw [if_pos h, if_pos h, mapGroupsNormalize_cons, ih, List.map_append]
      rfl
    · rw [if_neg h, if_neg h, mapGroupsNormalize_cons, ih]

theorem addToTsGroup_map (ts : ℤ) (o : OrderMatched) :
    ∀ m : List (ℤ × List OrderMatched),
      addToTsGroup (mapGroupsNormalize m) ts (normalizeWallet o)
        = mapGroupsNormalize (addToTsGroup m ts o) := by
  intro m
  by_cases h : m.any (fun p => decide (p.1 = ts))
  · rw [addToTsGroup, addToTsGroup, if_pos (by rw [mapGroups_any]; exact h), if_pos h,
      mapGroups_update]
  · rw [addToTsGroup, addToTsGroup, if_neg (by rw [mapGroups_any]; exact h), if_neg h]
    simp [mapGroupsNormalize]

theorem buildTsGroups_map :
    ∀ (l : List OrderMatched) (m : List (ℤ × List OrderMatched)),
      List.foldl (fun m o => addToTsGroup m (tsKey o) o) (mapGroupsNormalize m)
          (l.map normalizeWallet)
        = mapGroupsNormalize (List.foldl (fun m o => addToTsGroup m (tsKey o) o) m l) := by
  intro l
  induction l with
  | nil => intro m; rfl
  | cons o l ih =>
    intro m
    rw [List.map_cons, List.foldl_cons, List.foldl_cons]
    have hts : tsKey (normalizeWallet o) = tsKey o := rfl
    rw [hts, addToTsGroup_map]
    exact ih _

theorem mapGroups_keys : ∀ m : List (ℤ × List OrderMatched),
    (mapGroupsNormalize m).map (fun p => p.1) = m.map (fun p => p.1) := by
  intro m
  induction m with
  | nil => rfl
  | cons p m ih => simp [mapGroupsNormalize, ih]

theorem tsGroupOf_map (ts : ℤ) : ∀ m : List (ℤ × List OrderMatched),
    tsGroupOf (mapGroupsNormalize m) ts = (tsGroupOf m ts).map normalizeWallet := by
  intro m
  induction m with
  | nil => rfl
  | cons p m ih =>
    by_cases h : p.1 = ts
    · simp [mapGroupsNormalize, tsGroupOf, List.find?_cons, h]
    · simp only [mapGroupsNormalize, tsGroupOf, List.map_cons] at ih ⊢
      rw [List.find?_cons_of_neg _ (by simpa using h),
        List.find?_cons_of_neg _ (by simpa using h)]
      exact ih

theorem walletSetOf_step_normalize (s : List String) (o : OrderMatched) :
    (match (normalizeWallet o).wallet with
     | some w => setAdd s (toLowerCase w)
     | none => s)
      = (match o.wallet with
         | some w => setAdd s (toLowerCase w)
         | none => s) := by
  cases hw : o.wallet with
  | none => simp [normalizeWallet, hw]
  | some w => simp [normalizeWallet, hw, toLowerCase_idem]

theorem walletSetOf_map_normalize_aux :
    ∀ (l : List OrderMatched) (s : List String),
      List.foldl (fun s o => match o.wallet with
        | some w => setAdd s (toLowerCase w)
        | none => s) s (l.map normalizeWallet)
      = List.foldl (fun s o => match o.wallet with
          | some w => setAdd s (toLowerCase w)
          | none => s) s l := by
  intro l
  induction l with
  | nil => intro s; rfl
  | cons o l ih =>
    intro s
    rw [List.map_cons, List.foldl_cons, List.foldl_cons, walletSetOf_step_normalize]
    exact ih _

theorem walletSetOf_map_normalize (l : List OrderMatched) :
    walletSetOf (l.map normalizeWallet) = walletSetOf l :=
  walletSetOf_map_normalize_aux l []

theorem headOutcome_map_normalize (g : List OrderMatched) :
    headOutcome (g.map normalizeWallet) = headOutcome g := by
  cases g <;> rfl

theorem detailedSnapshotOf_map_normalize (ts : ℤ) (oi : Option ℤ) (g : List OrderMatched) :
    detailedSnapshotOf ts oi (g.map normalizeWallet) = detailedSnapshotOf ts oi g := by
  simp only [detailedSnapshotOf,
    filter_map_normalize isBuy (fun o => rfl),
    filter_map_normalize isSell (fun o => rfl),
    sumSize_map_normalize, sumValue_map_normalize,
    walletSetOf_map_normalize, List.length_map, headOutcome_map_normalize]

theorem isEmpty_map_normalize (l : List OrderMatched) :
    (l.map normalizeWallet).isEmpty = l.isEmpty := by
  cases l <;> rfl

theorem trackPriceByTimestamp_map_normalize (orders : List OrderMatched) (oi : Option ℤ) :
    trackPriceByTimestamp (orders.map normalizeWallet) oi
      = trackPriceByTimestamp orders oi := by
  have key : ∀ l : List OrderMatched,
      (sortInts ((buildTsGroups (l.map normalizeWallet)).map (fun p => p.1))).map
          (fun ts => detailedSnapshotOf ts oi
            (tsGroupOf (buildTsGroups (l.map normalizeWallet)) ts))
        = (sortInts ((buildTsGroups l).map (fun p => p.1))).map
            (fun ts => detailedSnapshotOf ts oi (tsGroupOf (buildTsGroups l) ts)) := by
    intro l
    have hb : buildTsGroups (l.map normalizeWallet)
        = mapGroupsNormalize (buildTsGroups l) := buildTsGroups_map l []
    rw [hb, mapGroups_keys]
    apply List.map_congr_left
    intro ts _
    rw [tsGroupOf_map, detailedSnapshotOf_map_normalize]
  cases oi with
  | none =>
    simp only [trackPriceByTimestamp,
      filter_map_normalize (fun o => o.onChainTimestamp.isSome) (fun o => rfl),
      sortByTs_map_normalize, isEmpty_map_normalize, key]
  | some i =>
    simp only [trackPriceByTimestamp,
      filter_map_normalize (fun o => decide (o.outcomeIndex = some i)) (fun o => rfl),
      filter_map_normalize (fun o => o.onChainTimestamp.isSome) (fun o => rfl),
      sortByTs_map_normalize, isEmpty_map_normalize, key]

theorem normalizeWallet_congr (o o' : OrderMatched)
    (h1 : o' = { o with wallet := o'.wallet })
    (h2 : o.wallet.map toLowerCase = o'.wallet.map toLowerCase) :
    normalizeWallet o = normalizeWallet o' := by
  cases o with
  | mk ra es wa sd sz pr oc oid ts =>
    cases o' with
    | mk ra' es' wa' sd' sz' pr' oc' oid' ts' =>
      simp only [OrderMatched.mk.injEq] at h1
      simp only at h2
      simp only [normalizeWallet, OrderMatched.mk.injEq]
      exact ⟨h1.1.symm, h1.2.1.symm, h2, h1.2.2.2.1.symm, h1.2.2.2.2.1.symm,
        h1.2.2.2.2.2.1.symm, h1.2.2.2.2.2.2.1.symm, h1.2.2.2.2.2.2.2.1.symm,
        h1.2.2.2.2.2.2.2.2.symm⟩

/-- C10: wallet addresses are compared and grouped case-insensitively on
the lowercased address in every aggregation: a differently-cased wallet
argument leaves every numeric output of `getWalletStats` and
`calculateWalletProfit` unchanged (only the echoed `wallet` string
differs), and replacing any trade's wallet field by a differently-cased
spelling of the same address leaves `getWalletStats`,
`calculateWalletProfit`, `analyzeByPrice` and `trackPriceByTimestamp`
unchanged — "0xABC" and "0xabc" are one wallet. -/
theorem C10_case_insensitive_wallets :
    (∀ (orders : List OrderMatched) (w w' : String) (cp : Option (List (ℤ × ℚ))),
      toLowerCase w = toLowerCase w' →
      getWalletStats orders w = { getWalletStats orders w' with wallet := w }
      ∧ calculateWalletProfit orders w cp
          = { calculateWalletProfit orders w' cp with wallet := w })
    ∧ (∀ (l1 l2 : List OrderMatched) (o o' : OrderMatched) (w : String)
         (cp : Option (List (ℤ × ℚ))) (oi : Option ℤ),
        o' = { o with wallet := o'.wallet } →
        o.wallet.map toLowerCase = o'.wallet.map toLowerCase →
        getWalletStats (l1 ++ o :: l2) w = getWalletStats (l1 ++ o' :: l2) w
        ∧ calculateWalletProfit (l1 ++ o :: l2) w cp
            = calculateWalletProfit (l1 ++ o' :: l2) w cp
        ∧ analyzeByPrice (l1 ++ o :: l2) oi = analyzeByPrice (l1 ++ o' :: l2) oi
        ∧ trackPriceByTimestamp (l1 ++ o :: l2) oi
            = trackPriceByTimestamp (l1 ++ o' :: l2) oi) := by
  constructor
  · intro orders w w' cp h
    have hfil : orders.filter (fun o => walletKeyMatches o w)
        = orders.filter (fun o => walletKeyMatches o w') :=
      List.filter_congr (fun o _ => walletKeyMatches_congr o w w' h)
    constructor
    · simp only [getWalletStats, hfil]
    · simp only [calculateWalletProfit, hfil]
  · intro l1 l2 o o' w cp oi h1 h2
    have hnorm : normalizeWallet o = normalizeWallet o' := normalizeWallet_congr o o' h1 h2
    have hmap : (l1 ++ o :: l2).map normalizeWallet
        = (l1 ++ o' :: l2).map normalizeWallet := by
      simp only [List.map_append, List.map_cons, hnorm]
    refine ⟨?_, ?_, ?_, ?_⟩
    · rw [← getWalletStats_map_normalize (l1 ++ o :: l2), hmap,
        getWalletStats_map_normalize]
    · rw [← calculateWalletProfit_map_normalize (l1 ++ o :: l2), hmap,
        calculateWalletProfit_map_normalize]
    · rw [← analyzeByPrice_map_normalize (l1 ++ o :: l2), hmap,
        analyzeByPrice_map_normalize]
    · rw [← trackPriceByTimestamp_map_normalize (l1 ++ o :: l2), hmap,
        trackPriceByTimestamp_map_normalize]

theorem C10_case_insensitive_wallets_witness :
    getWalletStats [mkOrder "0xAbC" Side.BUY 1 (1/2) 0 1] "0xABC"
      = { getWalletStats [mkOrder "0xAbC" Side.BUY 1 (1/2) 0 1] "0xabc" with
          wallet := "0xABC" }
    ∧ analyzeByPrice
        ([] ++ mkOrder "0xABC" Side.BUY 1 (1/2) 0 1 :: [mkOrder "b" Side.SELL 1 (1/2) 0 2])
        none
      = analyzeByPrice
          ([] ++ mkOrder "0xabc" Side.BUY 1 (1/2) 0 1 :: [mkOrder "b" Side.SELL 1 (1/2) 0 2])
          none := by
  constructor
  · exact (C10_case_insensitive_wallets.1 [mkOrder "0xAbC" Side.BUY 1 (1/2) 0 1]
      "0xABC" "0xabc" none (by decide)).1
  · exact (C10_case_insensitive_wallets.2 [] [mkOrder "b" Side.SELL 1 (1/2) 0 2]
      (mkOrder "0xABC" Side.BUY 1 (1/2) 0 1) (mkOrder "0xabc" Side.BUY 1 (1/2) 0 1)
      "w" none none (by decide) (by decide)).2.2.1

end Polymarket
